import Mathlib

/-!
Verification development for the raydium-clmm client core: address
derivation seeds, config loading, tick-array navigation, and
position-NFT enumeration, embedded shallowly from the Rust sources
(client/src/lib.rs and the create_support_mint_associated instruction).
Public keys are modelled as byte lists; the external hashing primitive
used by program-derived-address computation is an explicit function
parameter, since its internals are a library collaborator.
-/

/-- A public key or program identity: its raw byte form. -/
abbrev PubkeyBytes := List Nat

/-- An address-derivation primitive: seeds and a program identity map to
an address and a bump discriminant.  Stands for the external
find_program_address library call, which the client treats as a pure
total function. -/
abbrev Fpa := List (List Nat) → PubkeyBytes → PubkeyBytes × Nat

/-- Byte form of a textual domain tag (all tags are ASCII). -/
def strBytes (s : String) : List Nat :=
  s.data.map Char.toNat

/-- Lexicographic comparison of raw key bytes, as the Rust Ord instance
on fixed-size byte arrays compares them (element by element, first
difference decides). -/
def byteCompare : List Nat → List Nat → Ordering
  | [], [] => .eq
  | [], _ :: _ => .lt
  | _ :: _, [] => .gt
  | a :: as, b :: bs =>
    if a < b then .lt
    else if b < a then .gt
    else byteCompare as bs

/-- Big-endian byte encoding of a u16 value, as u16::to_be_bytes. -/
def u16_to_be_bytes (n : Nat) : List Nat :=
  [n / 256 % 256, n % 256]

/-- Big-endian byte encoding of an i32 value (twos complement), as
i32::to_be_bytes. -/
def i32_to_be_bytes (i : Int) : List Nat :=
  let m := (i % 4294967296).toNat
  [m / 16777216 % 256, m / 65536 % 256, m / 256 % 256, m % 256]

/-- The unsigned integer a byte list denotes when read big-endian. -/
def beVal (bs : List Nat) : Nat :=
  bs.foldl (fun a d => a * 256 + d) 0

/-- Modelled from the spec: the amm_config domain tag (the constant
raydium_amm_v3::states::AMM_CONFIG_SEED is outside the client sources). -/
def AMM_CONFIG_SEED : String := "amm_config"

/-- Modelled from the spec: the pool domain tag. -/
def POOL_SEED : String := "pool"

/-- Modelled from the spec: the tick_array domain tag. -/
def TICK_ARRAY_SEED : String := "tick_array"

/-- Modelled from the spec: the position domain tag. -/
def POSITION_SEED : String := "position"

/-- Modelled from the spec: the bitmap-extension domain tag. -/
def POOL_TICK_ARRAY_BITMAP_SEED : String := "pool_tick_array_bitmap_extension"

/-- Modelled from the spec: the support_mint domain tag. -/
def SUPPORT_MINT_SEED : String := "support_mint"

/-- Seed tuple for an AmmConfig address, as built in load_cfg:
the tag bytes followed by the u16 index in big-endian form. -/
def amm_config_seeds (index : Nat) : List (List Nat) :=
  [strBytes AMM_CONFIG_SEED, u16_to_be_bytes index]

/-- Seed tuple for a Pool address, as built in load_cfg: the tag bytes,
the AmmConfig address bytes, then the two canonicalized mint keys. -/
def pool_seeds (amm_config_key mint0 mint1 : PubkeyBytes) : List (List Nat) :=
  [strBytes POOL_SEED, amm_config_key, mint0, mint1]

/-- Seed tuple for a TickArray address, as built in
load_cur_and_next_five_tick_array: the tag bytes, the pool address, then
the i32 start index in big-endian form. -/
def tick_array_seeds (pool : PubkeyBytes) (start_index : Int) : List (List Nat) :=
  [strBytes TICK_ARRAY_SEED, pool, i32_to_be_bytes start_index]

/-- Seed tuple for a Position address, as built in
get_nft_account_and_position_by_owner: the tag bytes then the NFT mint. -/
def position_seeds (nft_mint : PubkeyBytes) : List (List Nat) :=
  [strBytes POSITION_SEED, nft_mint]

/-- Seed tuple for a TickArrayBitmapExtension address, as built in
load_cfg: the tag bytes then the pool address. -/
def bitmap_extension_seeds (pool : PubkeyBytes) : List (List Nat) :=
  [strBytes POOL_TICK_ARRAY_BITMAP_SEED, pool]

/-- Seed tuple for a SupportMintAssociated address, as declared by the
create_support_mint_associated accounts struct: the tag bytes then the
token mint key. -/
def support_mint_seeds (token_mint : PubkeyBytes) : List (List Nat) :=
  [strBytes SUPPORT_MINT_SEED, token_mint]

/-- One pubkey-valued config entry as load_cfg reads it from the ini
file: the raw string may be empty, may fail to parse as a key, or may
parse. -/
inductive CfgKey
  | empty
  | bad
  | ok (k : PubkeyBytes)
deriving DecidableEq

/-- The configuration fields load_cfg reads.  String fields keep their
raw text (load_cfg only checks emptiness); pubkey fields carry their
parse outcome; the integer index carries the parse outcome of getuint.
The slippage float is carried through untouched by load_cfg and is left
out of the embedding. -/
structure RawCfg where
  http_url : String
  ws_url : String
  payer_path : String
  admin_path : String
  raydium_v3_program : CfgKey
  mint0 : CfgKey
  mint1 : CfgKey
  amm_config_index : Option Nat
deriving DecidableEq

/-- The client configuration record produced by load_cfg (minus the
float slippage field, which the function only copies). -/
structure ClientConfig where
  http_url : String
  ws_url : String
  payer_path : String
  admin_path : String
  raydium_v3_program : PubkeyBytes
  amm_config_key : PubkeyBytes
  mint0 : Option PubkeyBytes
  mint1 : Option PubkeyBytes
  pool_id_account : Option PubkeyBytes
  tickarray_bitmap_extension : Option PubkeyBytes
  amm_config_index : Nat
deriving DecidableEq

/-- Embedding of load_cfg.  A none result stands for the panics and
unwrap failures of the Rust function (empty mandatory strings,
unparsable keys or index).  Mirrors the source: derive the AmmConfig
address from the index; when both mints are present swap them so the
lexicographically larger one is mint1, then derive the pool address and
from it the bitmap-extension address; when either mint is absent both
derived addresses stay none. -/
def load_cfg (fpa : Fpa) (c : RawCfg) : Option ClientConfig :=
  if c.http_url.isEmpty then none
  else if c.ws_url.isEmpty then none
  else if c.payer_path.isEmpty then none
  else if c.admin_path.isEmpty then none
  else
    match c.raydium_v3_program with
    | .empty => none
    | .bad => none
    | .ok program =>
      let mint0₀ : Option PubkeyBytes :=
        match c.mint0 with
        | .empty => none
        | .bad => none
        | .ok k => some k
      let mint1₀ : Option PubkeyBytes :=
        match c.mint1 with
        | .empty => none
        | .bad => none
        | .ok k => some k
      if c.mint0 = .bad ∨ c.mint1 = .bad then none
      else
        match c.amm_config_index with
        | none => none
        | some index =>
          let amm_config_key := (fpa (amm_config_seeds index) program).1
          let pair : Option PubkeyBytes × Option PubkeyBytes :=
            match mint0₀, mint1₀ with
            | some a, some b =>
              if byteCompare a b = Ordering.gt then (some b, some a)
              else (some a, some b)
            | x, y => (x, y)
          let mint0 := pair.1
          let mint1 := pair.2
          let pool_id_account :=
            match mint0, mint1 with
            | some a, some b => some (fpa (pool_seeds amm_config_key a b) program).1
            | _, _ => none
          let tickarray_bitmap_extension :=
            match pool_id_account with
            | some p => some (fpa (bitmap_extension_seeds p) program).1
            | none => none
          some
            { http_url := c.http_url
              ws_url := c.ws_url
              payer_path := c.payer_path
              admin_path := c.admin_path
              raydium_v3_program := program
              amm_config_key := amm_config_key
              mint0 := mint0
              mint1 := mint1
              pool_id_account := pool_id_account
              tickarray_bitmap_extension := tickarray_bitmap_extension
              amm_config_index := index }

/-- The pool-address derivation performed inside load_cfg, as a function
of the two configured mints: swap the pair when the first key compares
greater, then derive from the canonical order. -/
def derive_pool (fpa : Fpa) (program amm_config_key : PubkeyBytes)
    (mintA mintB : PubkeyBytes) : PubkeyBytes :=
  let pair := if byteCompare mintA mintB = .gt then (mintB, mintA) else (mintA, mintB)
  (fpa (pool_seeds amm_config_key pair.1 pair.2) program).1

/-- Largest element of a list of integers, none when empty. -/
def listMax : List Int → Option Int
  | [] => none
  | a :: as =>
    match listMax as with
    | none => some a
    | some b => some (max a b)

/-- Smallest element of a list of integers, none when empty. -/
def listMin : List Int → Option Int
  | [] => none
  | a :: as =>
    match listMin as with
    | none => some a
    | some b => some (min a b)

/-- Modelled from the spec: the combined bitmap state consulted by the
navigator.  The pool inline bitmap and its TickArrayBitmapExtension
(types from raydium_amm_v3::states, outside the client sources) are one
logical bit space; it is abstracted as the list of initialized
tick-array start indices. -/
abbrev InitializedStarts := List Int

/-- Modelled from the spec: PoolState::next_initialized_tick_array_start_index
(outside the client sources).  Bit-scans the combined bitmap for the
nearest initialized start index strictly beyond the given one in the
traversal direction: strictly below when zero_for_one, strictly above
otherwise; none when the bitmap is exhausted in that direction. -/
def next_initialized_tick_array_start_index
    (initialized : InitializedStarts) (cur : Int) (zero_for_one : Bool) : Option Int :=
  if zero_for_one then listMax (initialized.filter (fun i => i < cur))
  else listMin (initialized.filter (fun i => cur < i))

/-- Modelled from the spec: PoolState::get_first_initialized_tick_array
(outside the client sources).  Returns the start index of the tick array
holding the current tick when that array is initialized, otherwise the
nearest initialized start index in the traversal direction; none when no
initialized array exists in that direction. -/
def get_first_initialized_tick_array
    (initialized : InitializedStarts) (start : Int) (zero_for_one : Bool) : Option Int :=
  if start ∈ initialized then some start
  else next_initialized_tick_array_start_index initialized start zero_for_one

/-- The lookahead loop of load_cur_and_next_five_tick_array: repeatedly
take the next initialized start index beyond the current one, stopping
when the fuel runs out or the bitmap is exhausted. -/
def collect_next_tick_arrays
    (initialized : InitializedStarts) (zero_for_one : Bool) :
    Nat → Int → List Int
  | 0, _ => []
  | n + 1, cur =>
    match next_initialized_tick_array_start_index initialized cur zero_for_one with
    | none => []
    | some nxt => nxt :: collect_next_tick_arrays initialized zero_for_one n nxt

/-- Embedding of load_cur_and_next_five_tick_array, at the level of the
tick-array start indices whose addresses the function derives and
fetches: the first initialized array for the direction, followed by up
to five lookahead arrays (max_array_size starts at 5 and decrements).
An exhausted first lookup yields the empty sequence. -/
def load_cur_and_next_five_tick_array
    (initialized : InitializedStarts) (start : Int) (zero_for_one : Bool) : List Int :=
  match get_first_initialized_tick_array initialized start zero_for_one with
  | none => []
  | some first => first :: collect_next_tick_arrays initialized zero_for_one 5 first

/-- The tick-array addresses the navigator derives for its start-index
sequence, via the tick_array seed tuple. -/
def tick_array_keys (fpa : Fpa) (program pool : PubkeyBytes)
    (starts : List Int) : List PubkeyBytes :=
  starts.map (fun i => (fpa (tick_array_seeds pool i) program).1)

/-- The token_amount record inside a parsed token account.  The amount
is a decimal string in the wire format; the field carries its parse
outcome as a u64 (none = unparsable, which the source punishes with a
panic). -/
structure UiTokenAmount where
  amount : Option Nat
  decimals : Nat
deriving DecidableEq

/-- A token account as produced by the JSON deserializer.  String-typed
key fields carry their parse outcomes; close_authority distinguishes an
absent field (none) from a present one whose string may or may not parse. -/
structure UiTokenAccount where
  mint : Option PubkeyBytes
  frozen : Bool
  token_amount : UiTokenAmount
  close_authority : Option (Option PubkeyBytes)
deriving DecidableEq

/-- The data field of a keyed account returned by the token-account
index: JSON-parsed (carrying the program label and the deserializer
outcome for the parsed value) or some other encoding. -/
inductive UiAccountDataM
  | json (program : String) (parsed : Option UiTokenAccount)
  | other
deriving DecidableEq

/-- One keyed account from get_token_accounts_by_owner; pubkey carries
the parse outcome of the textual account key. -/
structure KeyedAccount where
  pubkey : Option PubkeyBytes
  data : UiAccountDataM
deriving DecidableEq

/-- The record the enumerator builds for each accepted position-NFT
holding, as in the source struct PositionNftTokenInfo. -/
structure PositionNftTokenInfo where
  key : PubkeyBytes
  program : PubkeyBytes
  position : PubkeyBytes
  mint : PubkeyBytes
  amount : Nat
  decimals : Nat
deriving DecidableEq

/-- Outcome of the loop body of get_nft_account_and_position_by_owner on
one keyed account: a panic, an accepted position record, or a skip. -/
inductive StepResult
  | panic
  | accept (info : PositionNftTokenInfo)
  | skip
deriving DecidableEq

/-- The program labels the enumerator recognizes in parsed JSON data. -/
def recognizedProgram (p : String) : Prop :=
  p = "spl-token" ∨ p = "spl-token-2022"

instance (p : String) : Decidable (recognizedProgram p) := by
  unfold recognizedProgram; infer_instance

/-- The loop body of get_nft_account_and_position_by_owner on one keyed
account, in source order: non-JSON data and unrecognized program labels
are skipped, as is a value the deserializer rejects; then the mint
string, account key, and amount string are parsed with a panic on
failure; close_authority defaults to the owner when absent and panics
when present but unparsable; finally the account is accepted exactly
when decimals = 0 and amount = 1, deriving the position address from the
mint. -/
def process_token_account (fpa : Fpa) (raydium_amm_v3_program owner token_program : PubkeyBytes)
    (ka : KeyedAccount) : StepResult :=
  match ka.data with
  | .other => .skip
  | .json prog parsed =>
    if recognizedProgram prog then
      match parsed with
      | none => .skip
      | some uta =>
        match uta.mint with
        | none => .panic
        | some token =>
          match ka.pubkey with
          | none => .panic
          | some token_account =>
            match uta.token_amount.amount with
            | none => .panic
            | some token_amount =>
              let close_auth : Option PubkeyBytes :=
                match uta.close_authority with
                | none => some owner
                | some none => none
                | some (some k) => some k
              match close_auth with
              | none => .panic
              | some _close_authority =>
                if uta.token_amount.decimals = 0 ∧ token_amount = 1 then
                  .accept
                    { key := token_account
                      program := token_program
                      position := (fpa (position_seeds token) raydium_amm_v3_program).1
                      mint := token
                      amount := token_amount
                      decimals := uta.token_amount.decimals }
                else .skip
    else .skip

/-- Embedding of get_nft_account_and_position_by_owner over the list of
keyed accounts the index returned: fold the loop body, collecting
accepted records in order; a none result stands for a panic aborting the
whole enumeration. -/
def get_nft_account_and_position_by_owner
    (fpa : Fpa) (raydium_amm_v3_program owner token_program : PubkeyBytes) :
    List KeyedAccount → Option (List PositionNftTokenInfo)
  | [] => some []
  | ka :: rest =>
    match process_token_account fpa raydium_amm_v3_program owner token_program ka with
    | .panic => none
    | .accept info =>
      (get_nft_account_and_position_by_owner fpa raydium_amm_v3_program owner
        token_program rest).map (fun l => info :: l)
    | .skip =>
      get_nft_account_and_position_by_owner fpa raydium_amm_v3_program owner
        token_program rest

/-- The legacy token program identity (spl_token::id value, an external
library constant; its exact bytes are irrelevant to the client logic). -/
def SPL_TOKEN_PROGRAM : PubkeyBytes := strBytes ("spl-token-program-id")

/-- The token-2022 program identity (spl_token_2022::id value, an
external library constant). -/
def SPL_TOKEN_2022_PROGRAM : PubkeyBytes := strBytes ("spl-token-2022-program-id")

/-- Embedding of get_all_nft_and_position_by_owner: run the enumeration
once per token-standard variant (each over the keyed accounts its query
returned) and concatenate the results with spl results first; a panic in
either enumeration aborts the whole call. -/
def get_all_nft_and_position_by_owner
    (fpa : Fpa) (raydium_amm_v3_program owner : PubkeyBytes)
    (tokens_spl tokens_2022 : List KeyedAccount) :
    Option (List PositionNftTokenInfo) :=
  match
    get_nft_account_and_position_by_owner fpa raydium_amm_v3_program owner
      SPL_TOKEN_PROGRAM tokens_spl,
    get_nft_account_and_position_by_owner fpa raydium_amm_v3_program owner
      SPL_TOKEN_2022_PROGRAM tokens_2022
  with
  | some a, some b => some (a ++ b)
  | _, _ => none

/-- The error codes the create_support_mint_associated instruction can
raise in the model: the NotApproved constraint violation from the
accounts struct, and the runtime rejection of an init on an account that
already exists. -/
inductive AmmError
  | NotApproved
  | AccountAlreadyInitialized
deriving DecidableEq

/-- The SupportMintAssociated account contents set by the handler. -/
structure SupportMintAssociated where
  bump : Nat
  mint : PubkeyBytes
deriving DecidableEq

/-- Modelled from the spec: the protocol admin identity
(crate::admin::ID, outside the given sources). -/
def admin_ID : PubkeyBytes := strBytes ("protocol-admin-identity")

/-- The dedicated support-mint-owner identity declared in the
instruction module (its base58 literal stands in as fixed bytes). -/
def create_support_mint_associated_owner_ID : PubkeyBytes :=
  strBytes ("support-mint-owner-identity")

/-- The token-2022 program identity required as the owner of the support
token mint (anchor_spl::token_2022::ID, an external constant). -/
def TOKEN_2022_PROGRAM : PubkeyBytes := strBytes ("token-2022-program-id")

/-- The mint account passed to create_support_mint_associated: its
address and its owning program. -/
structure MintAccount where
  key : PubkeyBytes
  owner : PubkeyBytes
deriving DecidableEq

/-- Embedding of the create_support_mint_associated instruction: the
accounts-struct constraints in declaration order (signing owner must be
the admin or the dedicated support-mint owner, else NotApproved; the
token mint must be owned by the token-2022 program, else NotApproved),
then the init of the SupportMintAssociated account at the address
derived from the support_mint seed tuple, which the runtime rejects when
an account already exists there; on success the handler stores the
derivation bump and the mint key.  The existing-accounts map is the
slice of ledger state the init consults. -/
def create_support_mint_associated (fpa : Fpa) (program_id : PubkeyBytes)
    (accounts : PubkeyBytes → Option SupportMintAssociated)
    (owner : PubkeyBytes) (token_mint : MintAccount) :
    Except AmmError (PubkeyBytes × SupportMintAssociated) :=
  if owner = admin_ID ∨ owner = create_support_mint_associated_owner_ID then
    if token_mint.owner = TOKEN_2022_PROGRAM then
      match accounts (fpa (support_mint_seeds token_mint.key) program_id).1 with
      | some _ => .error .AccountAlreadyInitialized
      | none =>
        .ok ((fpa (support_mint_seeds token_mint.key) program_id).1,
          { bump := (fpa (support_mint_seeds token_mint.key) program_id).2,
            mint := token_mint.key })
    else .error .NotApproved
  else .error .NotApproved

/-- Modelled from the spec: the bump search inside the derivation
engine.  Tries discriminants from the given value downward, returning
the first accepted one. -/
def findBump (ok : Nat → Bool) : Nat → Option Nat
  | 0 => if ok 0 then some 0 else none
  | n + 1 => if ok (n + 1) then some (n + 1) else findBump ok n

/-- Modelled from the spec: the derivation engine
find_program_address (a library collaborator, outside the given
sources).  Hashes the seed tuple, the program identity and a candidate
bump, searching bumps from 255 downward for the first hash that is a
valid (off-curve) address; returns that address and bump, or none in the
vanishingly rare case no bump is accepted. -/
def find_program_address_model
    (hash : List (List Nat) → PubkeyBytes → Nat → PubkeyBytes)
    (valid : PubkeyBytes → Bool)
    (seeds : List (List Nat)) (program_id : PubkeyBytes) :
    Option (PubkeyBytes × Nat) :=
  match findBump (fun b => valid (hash seeds program_id b)) 255 with
  | some b => some (hash seeds program_id b, b)
  | none => none

/-- The strict order between successive start indices in the traversal
direction: decreasing when zero_for_one, increasing otherwise. -/
def dirRel (zero_for_one : Bool) (a b : Int) : Prop :=
  if zero_for_one then b < a else a < b

instance (z : Bool) (a b : Int) : Decidable (dirRel z a b) := by
  unfold dirRel; infer_instance

/-- A keyed account whose inner string fields all parse whenever the
enumerator would reach them: for a JSON record with a recognized program
label whose value deserialized, the mint, account key and amount parse
and any present close_authority parses. -/
def wellFormedAccount (ka : KeyedAccount) : Prop :=
  match ka.data with
  | .other => True
  | .json _ none => True
  | .json prog (some uta) =>
    recognizedProgram prog →
      uta.mint.isSome = true ∧ ka.pubkey.isSome = true ∧
      uta.token_amount.amount.isSome = true ∧ uta.close_authority ≠ some none

instance (ka : KeyedAccount) : Decidable (wellFormedAccount ka) := by
  obtain ⟨pk, d⟩ := ka
  cases d with
  | other => unfold wellFormedAccount; dsimp only; infer_instance
  | json prog parsed =>
    cases parsed with
    | none => unfold wellFormedAccount; dsimp only; infer_instance
    | some uta => unfold wellFormedAccount; dsimp only; infer_instance

/-- A keyed account malformed at the outer decoding layers: non-JSON
data, an unrecognized program label, or a value the token-account
deserializer rejects. -/
def outerMalformed (ka : KeyedAccount) : Prop :=
  match ka.data with
  | .other => True
  | .json prog parsed => ¬ recognizedProgram prog ∨ parsed = none

instance (ka : KeyedAccount) : Decidable (outerMalformed ka) := by
  obtain ⟨pk, d⟩ := ka
  cases d with
  | other => unfold outerMalformed; dsimp only; infer_instance
  | json prog parsed => unfold outerMalformed; dsimp only; infer_instance

/-- A concrete derivation function for instantiations: the address is
the program identity followed by the flattened seeds, the bump 255. -/
def fpa0 : Fpa := fun seeds program_id => (program_id ++ seeds.flatten, 255)

/-- A concrete hash for instantiating the derivation-engine model. -/
def hash0 : List (List Nat) → PubkeyBytes → Nat → PubkeyBytes :=
  fun seeds program_id b => program_id ++ seeds.flatten ++ [b]

/-- A concrete off-curve test accepting every candidate. -/
def valid0 : PubkeyBytes → Bool := fun _ => true

/-- A raw configuration whose two mint entries hold the same key. -/
def rawCfgEq : RawCfg :=
  { http_url := "h"
    ws_url := "w"
    payer_path := "p"
    admin_path := "a"
    raydium_v3_program := .ok [7]
    mint0 := .ok [1]
    mint1 := .ok [1]
    amm_config_index := some 3 }

/-- The client configuration load_cfg produces from rawCfgEq under fpa0. -/
def c10cfg : ClientConfig :=
  { http_url := "h"
    ws_url := "w"
    payer_path := "p"
    admin_path := "a"
    raydium_v3_program := [7]
    amm_config_key := (fpa0 (amm_config_seeds 3) [7]).1
    mint0 := some [1]
    mint1 := some [1]
    pool_id_account :=
      some (fpa0 (pool_seeds (fpa0 (amm_config_seeds 3) [7]).1 [1] [1]) [7]).1
    tickarray_bitmap_extension :=
      some (fpa0 (bitmap_extension_seeds
        (fpa0 (pool_seeds (fpa0 (amm_config_seeds 3) [7]).1 [1] [1]) [7]).1) [7]).1
    amm_config_index := 3 }

/-- A well-formed JSON token account with the given decimals and amount. -/
def kaAcc (dec amt : Nat) : KeyedAccount :=
  { pubkey := some [10]
    data := .json ("spl-token")
      (some { mint := some [11], frozen := false
              token_amount := { amount := some amt, decimals := dec }
              close_authority := none }) }

/-- A parsed token account whose mint string does not parse. -/
def utaBadMint : UiTokenAccount :=
  { mint := none, frozen := false
    token_amount := { amount := some 1, decimals := 0 }
    close_authority := none }

/-- A keyed account carrying utaBadMint. -/
def kaBadMint : KeyedAccount :=
  { pubkey := some [2], data := .json ("spl-token") (some utaBadMint) }

/-- A parsed token account that is itself well formed (used with an
unparsable account key). -/
def utaBadKey : UiTokenAccount :=
  { mint := some [3], frozen := false
    token_amount := { amount := some 1, decimals := 0 }
    close_authority := none }

/-- A keyed account whose token-account key string does not parse. -/
def kaBadKey : KeyedAccount :=
  { pubkey := none, data := .json ("spl-token") (some utaBadKey) }

/-- A parsed token account whose amount string does not parse. -/
def utaBadAmount : UiTokenAccount :=
  { mint := some [3], frozen := false
    token_amount := { amount := none, decimals := 0 }
    close_authority := none }

/-- A keyed account carrying utaBadAmount. -/
def kaBadAmount : KeyedAccount :=
  { pubkey := some [6], data := .json ("spl-token") (some utaBadAmount) }

/-- A parsed token account whose present close_authority string does not
parse. -/
def utaBadCloseAuth : UiTokenAccount :=
  { mint := some [3], frozen := false
    token_amount := { amount := some 1, decimals := 0 }
    close_authority := some none }

/-- A keyed account carrying utaBadCloseAuth. -/
def kaBadCloseAuth : KeyedAccount :=
  { pubkey := some [7], data := .json ("spl-token") (some utaBadCloseAuth) }

/-- A fully well-formed position-NFT keyed account (decimals 0, amount 1). -/
def kaGood : KeyedAccount :=
  { pubkey := some [4]
    data := .json ("spl-token")
      (some { mint := some [3], frozen := false
              token_amount := { amount := some 1, decimals := 0 }
              close_authority := none }) }

/-- A keyed account with non-JSON data. -/
def kaOther : KeyedAccount := { pubkey := some [5], data := .other }

/-- The position record the enumerator builds from kaGood under fpa0
with program [1], for a given token-standard identity. -/
def infoGood (tp : PubkeyBytes) : PositionNftTokenInfo :=
  { key := [4], program := tp
    position := (fpa0 (position_seeds [3]) [1]).1
    mint := [3], amount := 1, decimals := 0 }

/-- The support-mint address derived under fpa0 for mint [9], program [1]. -/
def sm_addr : PubkeyBytes := (fpa0 (support_mint_seeds [9]) [1]).1

/-- The SupportMintAssociated contents stored for mint [9] under fpa0. -/
def sm_state : SupportMintAssociated :=
  { bump := (fpa0 (support_mint_seeds [9]) [1]).2, mint := [9] }

/-- A ledger slice already holding the support-mint account for mint [9]. -/
def accounts1 : PubkeyBytes → Option SupportMintAssociated :=
  fun a => if a = sm_addr then some sm_state else none

theorem byteCompare_eq_iff : ∀ (a b : List Nat), byteCompare a b = Ordering.eq ↔ a = b := by
  intro a
  induction a with
  | nil => intro b; cases b <;> simp [byteCompare]
  | cons x xs ih =>
    intro b
    cases b with
    | nil => simp [byteCompare]
    | cons y ys =>
      simp only [byteCompare]
      by_cases h1 : x < y
      · rw [if_pos h1]
        constructor
        · intro hc; exact absurd hc (by decide)
        · intro hc; injection hc with h _; omega
      · by_cases h2 : y < x
        · rw [if_neg h1, if_pos h2]
          constructor
          · intro hc; exact absurd hc (by decide)
          · intro hc; injection hc with h _; omega
        · rw [if_neg h1, if_neg h2]
          have hxy : x = y := by omega
          subst hxy
          rw [ih ys]
          simp

theorem byteCompare_gt_iff_lt : ∀ (a b : List Nat),
    byteCompare a b = Ordering.gt ↔ byteCompare b a = Ordering.lt := by
  intro a
  induction a with
  | nil => intro b; cases b <;> simp [byteCompare]
  | cons x xs ih =>
    intro b
    cases b with
    | nil => simp [byteCompare]
    | cons y ys =>
      simp only [byteCompare]
      by_cases h1 : x < y
      · rw [if_pos h1, if_neg (by omega : ¬ y < x), if_pos h1]
        constructor <;> (intro hc; exact absurd hc (by decide))
      · by_cases h2 : y < x
        · rw [if_neg h1, if_pos h2, if_pos h2]
          simp
        · rw [if_neg h1, if_neg h2, if_neg h2, if_neg h1]
          exact ih ys

theorem listMax_mem : ∀ {l : List Int} {x : Int}, listMax l = some x → x ∈ l := by
  intro l
  induction l with
  | nil => intro x h; simp [listMax] at h
  | cons a as ih =>
    intro x h
    simp only [listMax] at h
    cases hm : listMax as with
    | none =>
      rw [hm] at h
      injection h with h
      subst h
      exact List.mem_cons_self a as
    | some b =>
      rw [hm] at h
      injection h with h
      subst h
      rcases max_choice a b with h1 | h1 <;> rw [h1]
      · exact List.mem_cons_self a as
      · exact List.mem_cons_of_mem _ (ih hm)

theorem listMin_mem : ∀ {l : List Int} {x : Int}, listMin l = some x → x ∈ l := by
  intro l
  induction l with
  | nil => intro x h; simp [listMin] at h
  | cons a as ih =>
    intro x h
    simp only [listMin] at h
    cases hm : listMin as with
    | none =>
      rw [hm] at h
      injection h with h
      subst h
      exact List.mem_cons_self a as
    | some b =>
      rw [hm] at h
      injection h with h
      subst h
      rcases min_choice a b with h1 | h1 <;> rw [h1]
      · exact List.mem_cons_self a as
      · exact List.mem_cons_of_mem _ (ih hm)

theorem next_tick_mem_dir {initialized : InitializedStarts} {cur x : Int} {z : Bool}
    (h : next_initialized_tick_array_start_index initialized cur z = some x) :
    x ∈ initialized ∧ dirRel z cur x := by
  unfold next_initialized_tick_array_start_index at h
  cases z with
  | true =>
    rw [if_pos rfl] at h
    have hx := listMax_mem h
    rw [List.mem_filter] at hx
    refine ⟨hx.1, ?_⟩
    have := of_decide_eq_true hx.2
    simpa [dirRel] using this
  | false =>
    rw [if_neg (by simp)] at h
    have hx := listMin_mem h
    rw [List.mem_filter] at hx
    refine ⟨hx.1, ?_⟩
    have := of_decide_eq_true hx.2
    simpa [dirRel] using this

theorem dirRel_trans (z : Bool) : Transitive (dirRel z) := by
  intro a b c hab hbc
  cases z <;> simp [dirRel] at * <;> omega

theorem collect_length (initialized : InitializedStarts) (z : Bool) :
    ∀ (n : Nat) (cur : Int),
      (collect_next_tick_arrays initialized z n cur).length ≤ n := by
  intro n
  induction n with
  | zero => intro cur; simp [collect_next_tick_arrays]
  | succ n ih =>
    intro cur
    rw [collect_next_tick_arrays]
    cases hn : next_initialized_tick_array_start_index initialized cur z with
    | none => simp
    | some nxt =>
      simp only [List.length_cons]
      exact Nat.succ_le_succ (ih nxt)

theorem collect_sorted (initialized : InitializedStarts) (z : Bool) :
    ∀ (n : Nat) (cur : Int),
      (∀ x ∈ collect_next_tick_arrays initialized z n cur, dirRel z cur x) ∧
      (collect_next_tick_arrays initialized z n cur).Pairwise (dirRel z) := by
  intro n
  induction n with
  | zero => intro cur; simp [collect_next_tick_arrays]
  | succ n ih =>
    intro cur
    rw [collect_next_tick_arrays]
    cases hn : next_initialized_tick_array_start_index initialized cur z with
    | none => simp
    | some nxt =>
      obtain ⟨_, hdir⟩ := next_tick_mem_dir hn
      obtain ⟨ih1, ih2⟩ := ih nxt
      constructor
      · intro x hx
        rcases List.mem_cons.mp hx with rfl | hx
        · exact hdir
        · exact dirRel_trans z hdir (ih1 x hx)
      · exact List.Pairwise.cons ih1 ih2

theorem next_tick_exhausted {initialized : InitializedStarts} {start : Int} {z : Bool}
    (h : ∀ i ∈ initialized, ¬ dirRel z start i) :
    next_initialized_tick_array_start_index initialized start z = none := by
  unfold next_initialized_tick_array_start_index
  cases z with
  | true =>
    rw [if_pos rfl]
    have hf : initialized.filter (fun i => i < start) = [] := by
      rw [List.filter_eq_nil_iff]
      intro i hi
      have := h i hi
      simp [dirRel] at this
      simpa using this
    rw [hf]
    rfl
  | false =>
    rw [if_neg (by simp)]
    have hf : initialized.filter (fun i => start < i) = [] := by
      rw [List.filter_eq_nil_iff]
      intro i hi
      have := h i hi
      simp [dirRel] at this
      simpa using this
    rw [hf]
    rfl

theorem process_no_panic (fpa : Fpa) (rp owner tp : PubkeyBytes) (ka : KeyedAccount)
    (hw : wellFormedAccount ka) :
    process_token_account fpa rp owner tp ka ≠ StepResult.panic := by
  obtain ⟨pk, d⟩ := ka
  cases d with
  | other => simp [process_token_account]
  | json prog parsed =>
    cases parsed with
    | none => by_cases hp : recognizedProgram prog <;> simp [process_token_account, hp]
    | some uta =>
      obtain ⟨m, fz, ⟨am, dec⟩, ca⟩ := uta
      by_cases hp : recognizedProgram prog
      · simp only [wellFormedAccount] at hw
        obtain ⟨hm, hk, ha, hc⟩ := hw hp
        cases m with
        | none => simp at hm
        | some token =>
          cases pk with
          | none => simp at hk
          | some k =>
            cases am with
            | none => simp at ha
            | some amt =>
              cases ca with
              | none =>
                simp only [process_token_account, hp, if_true]
                split <;> simp
              | some c =>
                cases c with
                | none => simp at hc
                | some cc =>
                  simp only [process_token_account, hp, if_true]
                  split <;> simp
      · simp [process_token_account, hp]

theorem process_accept_iff (fpa : Fpa) (rp owner tp : PubkeyBytes)
    (pk : Option PubkeyBytes) (prog : String) (uta : UiTokenAccount)
    (hp : recognizedProgram prog)
    (hw : wellFormedAccount ⟨pk, UiAccountDataM.json prog (some uta)⟩) :
    (∃ info, process_token_account fpa rp owner tp ⟨pk, UiAccountDataM.json prog (some uta)⟩ =
        StepResult.accept info) ↔
      uta.token_amount.decimals = 0 ∧ uta.token_amount.amount = some 1 := by
  obtain ⟨m, fz, ⟨am, dec⟩, ca⟩ := uta
  simp only [wellFormedAccount] at hw
  obtain ⟨hm, hk, ha, hc⟩ := hw hp
  cases m with
  | none => simp at hm
  | some token =>
    cases pk with
    | none => simp at hk
    | some k =>
      cases am with
      | none => simp at ha
      | some amt =>
        cases ca with
        | none =>
          by_cases hcond : dec = 0 ∧ amt = 1 <;>
            simp [process_token_account, hp, hcond]
        | some c =>
          cases c with
          | none => simp at hc
          | some cc =>
            by_cases hcond : dec = 0 ∧ amt = 1 <;>
              simp [process_token_account, hp, hcond]

theorem process_skip_outer (fpa : Fpa) (rp owner tp : PubkeyBytes) (ka : KeyedAccount)
    (h : outerMalformed ka) :
    process_token_account fpa rp owner tp ka = StepResult.skip := by
  obtain ⟨pk, d⟩ := ka
  cases d with
  | other => rfl
  | json prog parsed =>
    simp only [outerMalformed] at h
    rcases h with h | h
    · simp [process_token_account, h]
    · subst h
      by_cases hp : recognizedProgram prog <;> simp [process_token_account, hp]

theorem process_panic_inner (fpa : Fpa) (rp owner tp : PubkeyBytes)
    (pk : Option PubkeyBytes) (prog : String) (uta : UiTokenAccount)
    (hp : recognizedProgram prog)
    (hbad : uta.mint = none ∨ pk = none ∨ uta.token_amount.amount = none ∨
      uta.close_authority = some none) :
    process_token_account fpa rp owner tp ⟨pk, UiAccountDataM.json prog (some uta)⟩ =
      StepResult.panic := by
  obtain ⟨m, fz, ⟨am, dec⟩, ca⟩ := uta
  cases m with
  | none => simp [process_token_account, hp]
  | some token =>
    cases pk with
    | none => simp [process_token_account, hp]
    | some k =>
      cases am with
      | none => simp [process_token_account, hp]
      | some amt =>
        simp at hbad
        subst hbad
        simp [process_token_account, hp]

theorem enumeration_isSome (fpa : Fpa) (rp owner tp : PubkeyBytes) :
    ∀ tokens : List KeyedAccount,
      (∀ ka ∈ tokens, process_token_account fpa rp owner tp ka ≠ StepResult.panic) →
      (get_nft_account_and_position_by_owner fpa rp owner tp tokens).isSome = true := by
  intro tokens
  induction tokens with
  | nil => intro _; rfl
  | cons ka rest ih =>
    intro h
    rw [get_nft_account_and_position_by_owner]
    cases hstep : process_token_account fpa rp owner tp ka with
    | panic => exact absurd hstep (h ka (List.mem_cons_self ka rest))
    | accept info =>
      have hr := ih (fun x hx => h x (List.mem_cons_of_mem _ hx))
      cases hrest : get_nft_account_and_position_by_owner fpa rp owner tp rest with
      | none => rw [hrest] at hr; simp at hr
      | some l => simp
    | skip => exact ih (fun x hx => h x (List.mem_cons_of_mem _ hx))

theorem collect_exhausted {initialized : InitializedStarts} {z : Bool} {cur : Int}
    (h : next_initialized_tick_array_start_index initialized cur z = none) :
    ∀ n, collect_next_tick_arrays initialized z n cur = [] := by
  intro n
  cases n with
  | zero => rfl
  | succ n => rw [collect_next_tick_arrays, h]

/-- C1: for every pool bitmap state and swap direction, the start-index
sequence produced by load_cur_and_next_five_tick_array has at most 6
elements (the current array plus at most 5 lookahead arrays) and is
strictly monotonic in the traversal direction: strictly decreasing when
zero_for_one, strictly increasing otherwise. -/
theorem c1_navigator_bound_monotonic (initialized : InitializedStarts)
    (start : Int) (zero_for_one : Bool) :
    (load_cur_and_next_five_tick_array initialized start zero_for_one).length ≤ 6 ∧
    (load_cur_and_next_five_tick_array initialized start zero_for_one).Pairwise
      (dirRel zero_for_one) := by
  unfold load_cur_and_next_five_tick_array
  cases hf : get_first_initialized_tick_array initialized start zero_for_one with
  | none => simp
  | some first =>
    obtain ⟨h1, h2⟩ := collect_sorted initialized zero_for_one 5 first
    constructor
    · have := collect_length initialized zero_for_one 5 first
      simp only [List.length_cons]
      omega
    · exact List.Pairwise.cons h1 h2

/-- C2: when no tick array strictly beyond the starting array is
initialized in the requested direction, the navigator returns only the
starting array when that array is initialized, and the empty sequence
otherwise; in particular the function is total, yielding a list rather
than an error. -/
theorem c2_exhaustion_empty (initialized : InitializedStarts)
    (start : Int) (zero_for_one : Bool)
    (h : ∀ i ∈ initialized, ¬ dirRel zero_for_one start i) :
    load_cur_and_next_five_tick_array initialized start zero_for_one =
      if start ∈ initialized then [start] else [] := by
  have hnext := next_tick_exhausted h
  unfold load_cur_and_next_five_tick_array get_first_initialized_tick_array
  by_cases hs : start ∈ initialized
  · rw [if_pos hs, if_pos hs]
    show start :: collect_next_tick_arrays initialized zero_for_one 5 start = [start]
    rw [collect_exhausted hnext]
  · rw [if_neg hs, if_neg hs, hnext]

/-- Witness for c2_exhaustion_empty: a bitmap whose only initialized
start index is the starting array itself yields exactly that array. -/
theorem c2_exhaustion_empty_witness :
    load_cur_and_next_five_tick_array [5] 5 true = [5] := by
  rw [c2_exhaustion_empty [5] 5 true (by decide)]
  decide

/-- C3: the pool address load_cfg derives is invariant under swapping
the two configured mints, for every derivation function, config key and
pair of distinct mints, because the pair is canonicalized before the
seed tuple is built. -/
theorem c3_mint_order_invariance (fpa : Fpa) (program amm_config_key : PubkeyBytes)
    (mintA mintB : PubkeyBytes) (h : mintA ≠ mintB) :
    derive_pool fpa program amm_config_key mintA mintB =
      derive_pool fpa program amm_config_key mintB mintA := by
  unfold derive_pool
  cases hc : byteCompare mintA mintB with
  | lt =>
    have hba : byteCompare mintB mintA = Ordering.gt :=
      (byteCompare_gt_iff_lt mintB mintA).mpr hc
    simp [hc, hba]
  | eq => exact absurd ((byteCompare_eq_iff mintA mintB).mp hc) h
  | gt =>
    have hba : byteCompare mintB mintA = Ordering.lt :=
      (byteCompare_gt_iff_lt mintA mintB).mp hc
    simp [hc, hba]

/-- Witness for c3_mint_order_invariance at a concrete derivation
function and mint pair. -/
theorem c3_mint_order_invariance_witness :
    derive_pool fpa0 [0] [6] [1] [2] = derive_pool fpa0 [0] [6] [2] [1] :=
  c3_mint_order_invariance fpa0 [0] [6] [1] [2] (by decide)

/-- C7: the integer seed components are big-endian: the AmmConfig seed
tuple is the amm_config tag followed by a 2-byte string whose big-endian
value is the u16 index, and the TickArray seed tuple is the tick_array
tag, the pool address, and a 4-byte string whose big-endian value is the
twos-complement residue of the i32 start index. -/
theorem c7_big_endian_seeds (index : Nat) (pool : PubkeyBytes) (start_index : Int)
    (h : index < 65536) :
    amm_config_seeds index = [strBytes AMM_CONFIG_SEED, u16_to_be_bytes index] ∧
    (u16_to_be_bytes index).length = 2 ∧
    beVal (u16_to_be_bytes index) = index ∧
    tick_array_seeds pool start_index =
      [strBytes TICK_ARRAY_SEED, pool, i32_to_be_bytes start_index] ∧
    (i32_to_be_bytes start_index).length = 4 ∧
    (beVal (i32_to_be_bytes start_index) : Int) = start_index % 4294967296 := by
  refine ⟨rfl, rfl, ?_, rfl, rfl, ?_⟩
  · unfold beVal u16_to_be_bytes
    simp only [List.foldl]
    omega
  · unfold beVal i32_to_be_bytes
    simp only [List.foldl]
    have h0 : 0 ≤ start_index % 4294967296 :=
      Int.emod_nonneg start_index (by norm_num)
    have h1 : start_index % 4294967296 < 4294967296 :=
      Int.emod_lt_of_pos start_index (by norm_num)
    have hm : ((start_index % 4294967296).toNat : Int) = start_index % 4294967296 :=
      Int.toNat_of_nonneg h0
    omega

/-- Witness for c7_big_endian_seeds at index 3, pool [1], start -180. -/
theorem c7_big_endian_seeds_witness :
    amm_config_seeds 3 = [strBytes AMM_CONFIG_SEED, u16_to_be_bytes 3] ∧
    (u16_to_be_bytes 3).length = 2 ∧
    beVal (u16_to_be_bytes 3) = 3 ∧
    tick_array_seeds [1] (-180) =
      [strBytes TICK_ARRAY_SEED, [1], i32_to_be_bytes (-180)] ∧
    (i32_to_be_bytes (-180)).length = 4 ∧
    (beVal (i32_to_be_bytes (-180)) : Int) = (-180) % 4294967296 :=
  c7_big_endian_seeds 3 [1] (-180) (by decide)

/-- C9: the derivation engine is deterministic: two invocations of the
modelled find_program_address on the same seed tuple and program
identity yield the identical address-bump result. -/
theorem c9_derive_deterministic
    (hash : List (List Nat) → PubkeyBytes → Nat → PubkeyBytes)
    (valid : PubkeyBytes → Bool)
    (seeds : List (List Nat)) (program_id : PubkeyBytes)
    (r1 r2 : Option (PubkeyBytes × Nat))
    (h1 : r1 = find_program_address_model hash valid seeds program_id)
    (h2 : r2 = find_program_address_model hash valid seeds program_id) :
    r1 = r2 :=
  h1.trans h2.symm

/-- Witness for c9_derive_deterministic at a concrete hash, validity
test and seed tuple. -/
theorem c9_derive_deterministic_witness :
    find_program_address_model hash0 valid0 [[1]] [2] =
      find_program_address_model hash0 valid0 [[1]] [2] :=
  c9_derive_deterministic hash0 valid0 [[1]] [2] _ _ rfl rfl

/-- C4: over any token-account set whose records are well formed, the
enumeration completes without a panic, and a record with a recognized
program label and a deserialized token account is accepted as a
position-NFT holding exactly when its decimals field is 0 and its
amount is 1; all other such records are skipped, not errored. -/
theorem c4_nft_filter (fpa : Fpa) (rp owner tp : PubkeyBytes)
    (tokens : List KeyedAccount) (h : ∀ ka ∈ tokens, wellFormedAccount ka) :
    (get_nft_account_and_position_by_owner fpa rp owner tp tokens).isSome = true ∧
    ∀ ka ∈ tokens,
      process_token_account fpa rp owner tp ka ≠ StepResult.panic ∧
      ∀ prog uta, ka.data = UiAccountDataM.json prog (some uta) →
        recognizedProgram prog →
        ((∃ info, process_token_account fpa rp owner tp ka = StepResult.accept info) ↔
          uta.token_amount.decimals = 0 ∧ uta.token_amount.amount = some 1) := by
  constructor
  · exact enumeration_isSome fpa rp owner tp tokens
      (fun ka hka => process_no_panic fpa rp owner tp ka (h ka hka))
  · intro ka hka
    refine ⟨process_no_panic fpa rp owner tp ka (h ka hka), ?_⟩
    intro prog uta hd hp
    obtain ⟨pk, d⟩ := ka
    simp only at hd
    subst hd
    exact process_accept_iff fpa rp owner tp pk prog uta hp (h _ hka)

/-- Witness for c4_nft_filter on a set holding a decimals-0 amount-1
record, a decimals-0 amount-2 record, and a decimals-9 amount-1 record:
the enumeration succeeds, and exactly the first record is reported. -/
theorem c4_nft_filter_witness :
    (get_nft_account_and_position_by_owner fpa0 [1] [2] [3]
        [kaAcc 0 1, kaAcc 0 2, kaAcc 9 1]).isSome = true ∧
    (get_nft_account_and_position_by_owner fpa0 [1] [2] [3]
        [kaAcc 0 1, kaAcc 0 2, kaAcc 9 1]).map List.length = some 1 :=
  ⟨(c4_nft_filter fpa0 [1] [2] [3] [kaAcc 0 1, kaAcc 0 2, kaAcc 9 1] (by decide)).1,
   by decide⟩

/-- Counterexample to C5: a token-account set holding one record with an
unparsable mint string, account-key string, amount string, or present
close-authority string, followed by one fully well-formed position
record, makes the enumeration abort (panic, modelled as none) in each of
the four cases, instead of returning the position of the remaining
well-formed record, which the enumeration does report when the malformed
record is absent. -/
theorem c5_counterexample :
    get_nft_account_and_position_by_owner fpa0 [1] [2] [3] [kaBadMint, kaGood] = none ∧
    get_nft_account_and_position_by_owner fpa0 [1] [2] [3] [kaBadKey, kaGood] = none ∧
    get_nft_account_and_position_by_owner fpa0 [1] [2] [3] [kaBadAmount, kaGood] =
      none ∧
    get_nft_account_and_position_by_owner fpa0 [1] [2] [3] [kaBadCloseAuth, kaGood] =
      none ∧
    (get_nft_account_and_position_by_owner fpa0 [1] [2] [3] [kaGood]).map
      List.length = some 1 := by
  refine ⟨rfl, rfl, rfl, rfl, rfl⟩

/-- C5 as amended: a record malformed at the outer decoding layers
(non-JSON data, an unrecognized program label, or a value the
token-account deserializer rejects) is skipped and the remaining records
still produce their positions; but a record with a recognized program
label and a deserialized value whose mint string, account-key string,
amount string, or present close-authority string does not parse makes
the whole enumeration panic. -/
theorem c5_skip_outer_malformed (fpa : Fpa) (rp owner tp : PubkeyBytes)
    (ka : KeyedAccount) (tokens : List KeyedAccount) :
    (outerMalformed ka →
      get_nft_account_and_position_by_owner fpa rp owner tp (ka :: tokens) =
        get_nft_account_and_position_by_owner fpa rp owner tp tokens) ∧
    (∀ prog uta, ka.data = UiAccountDataM.json prog (some uta) →
      recognizedProgram prog →
      (uta.mint = none ∨ ka.pubkey = none ∨ uta.token_amount.amount = none ∨
        uta.close_authority = some none) →
      get_nft_account_and_position_by_owner fpa rp owner tp (ka :: tokens) = none) := by
  constructor
  · intro h
    rw [get_nft_account_and_position_by_owner,
      process_skip_outer fpa rp owner tp ka h]
  · intro prog uta hd hp hbad
    obtain ⟨pk, d⟩ := ka
    simp only at hd hbad
    subst hd
    rw [get_nft_account_and_position_by_owner,
      process_panic_inner fpa rp owner tp pk prog uta hp hbad]

/-- Witness for c5_skip_outer_malformed: a non-JSON record in front of a
well-formed one is skipped, and records with an unparsable mint,
account key, amount, or close authority in front of it each abort. -/
theorem c5_skip_outer_malformed_witness :
    get_nft_account_and_position_by_owner fpa0 [1] [2] [3] [kaOther, kaGood] =
      get_nft_account_and_position_by_owner fpa0 [1] [2] [3] [kaGood] ∧
    get_nft_account_and_position_by_owner fpa0 [1] [2] [3] [kaBadMint, kaGood] =
      none ∧
    get_nft_account_and_position_by_owner fpa0 [1] [2] [3] [kaBadKey, kaGood] =
      none ∧
    get_nft_account_and_position_by_owner fpa0 [1] [2] [3] [kaBadAmount, kaGood] =
      none ∧
    get_nft_account_and_position_by_owner fpa0 [1] [2] [3] [kaBadCloseAuth, kaGood] =
      none :=
  ⟨(c5_skip_outer_malformed fpa0 [1] [2] [3] kaOther [kaGood]).1 (by trivial),
   (c5_skip_outer_malformed fpa0 [1] [2] [3] kaBadMint [kaGood]).2
     ("spl-token") utaBadMint rfl (Or.inl rfl) (Or.inl rfl),
   (c5_skip_outer_malformed fpa0 [1] [2] [3] kaBadKey [kaGood]).2
     ("spl-token") utaBadKey rfl (Or.inl rfl) (Or.inr (Or.inl rfl)),
   (c5_skip_outer_malformed fpa0 [1] [2] [3] kaBadAmount [kaGood]).2
     ("spl-token") utaBadAmount rfl (Or.inl rfl) (Or.inr (Or.inr (Or.inl rfl))),
   (c5_skip_outer_malformed fpa0 [1] [2] [3] kaBadCloseAuth [kaGood]).2
     ("spl-token") utaBadCloseAuth rfl (Or.inl rfl)
     (Or.inr (Or.inr (Or.inr rfl)))⟩

/-- C6: get_all_nft_and_position_by_owner queries the legacy and the
2022 token standards and returns the concatenation of the two
enumeration results without deduplication; every record therefore
occurs in the output as often as it occurs across the two lists, and
exactly once when the two queries jointly report it once. -/
theorem c6_cross_standard_union (fpa : Fpa) (rp owner : PubkeyBytes)
    (t1 t2 : List KeyedAccount) (l1 l2 : List PositionNftTokenInfo)
    (h1 : get_nft_account_and_position_by_owner fpa rp owner SPL_TOKEN_PROGRAM t1 =
      some l1)
    (h2 : get_nft_account_and_position_by_owner fpa rp owner SPL_TOKEN_2022_PROGRAM t2 =
      some l2) :
    get_all_nft_and_position_by_owner fpa rp owner t1 t2 = some (l1 ++ l2) ∧
    (∀ x, (l1 ++ l2).count x = l1.count x + l2.count x) ∧
    (∀ x, l1.count x + l2.count x = 1 → (l1 ++ l2).count x = 1) := by
  refine ⟨?_, fun x => List.count_append x l1 l2, ?_⟩
  · unfold get_all_nft_and_position_by_owner
    rw [h1, h2]
  · intro x hx
    rw [List.count_append]
    exact hx

/-- Witness for c6_cross_standard_union: one position under the legacy
standard and none under the 2022 standard appears exactly once. -/
theorem c6_cross_standard_union_witness :
    get_all_nft_and_position_by_owner fpa0 [1] [2] [kaGood] [] =
      some ([infoGood SPL_TOKEN_PROGRAM] ++ []) :=
  (c6_cross_standard_union fpa0 [1] [2] [kaGood] []
    [infoGood SPL_TOKEN_PROGRAM] [] rfl rfl).1

/-- C8: create_support_mint_associated succeeds only for the two
authorized identities and fails with NotApproved for any other signer;
for an authorized signer, a token-2022 mint and a fresh address it
creates the SupportMintAssociated account at the support_mint-derived
address storing exactly the mint and the derivation bump, and any later
creation for the same mint fails because the account already exists. -/
theorem c8_support_mint_gating (fpa : Fpa) (program_id : PubkeyBytes)
    (accounts : PubkeyBytes → Option SupportMintAssociated)
    (owner : PubkeyBytes) (token_mint : MintAccount) :
    (∀ r, create_support_mint_associated fpa program_id accounts owner token_mint =
        Except.ok r →
      owner = admin_ID ∨ owner = create_support_mint_associated_owner_ID) ∧
    (¬(owner = admin_ID ∨ owner = create_support_mint_associated_owner_ID) →
      create_support_mint_associated fpa program_id accounts owner token_mint =
        Except.error AmmError.NotApproved) ∧
    ((owner = admin_ID ∨ owner = create_support_mint_associated_owner_ID) →
      token_mint.owner = TOKEN_2022_PROGRAM →
      accounts (fpa (support_mint_seeds token_mint.key) program_id).1 = none →
      create_support_mint_associated fpa program_id accounts owner token_mint =
        Except.ok ((fpa (support_mint_seeds token_mint.key) program_id).1,
          { bump := (fpa (support_mint_seeds token_mint.key) program_id).2,
            mint := token_mint.key }) ∧
      ∀ accounts2 : PubkeyBytes → Option SupportMintAssociated,
        (accounts2 (fpa (support_mint_seeds token_mint.key) program_id).1).isSome =
          true →
        create_support_mint_associated fpa program_id accounts2 owner token_mint =
          Except.error AmmError.AccountAlreadyInitialized) := by
  by_cases hown : owner = admin_ID ∨ owner = create_support_mint_associated_owner_ID
  · refine ⟨fun r _ => hown, fun hc => absurd hown hc, fun _ hmint hacc => ⟨?_, ?_⟩⟩
    · unfold create_support_mint_associated
      rw [if_pos hown, if_pos hmint, hacc]
    · intro accounts2 h2
      unfold create_support_mint_associated
      rw [if_pos hown, if_pos hmint]
      cases hx : accounts2 (fpa (support_mint_seeds token_mint.key) program_id).1 with
      | none => rw [hx] at h2; simp at h2
      | some st => rfl
  · refine ⟨fun r hr => ?_, fun _ => ?_, fun hd => absurd hd hown⟩
    · unfold create_support_mint_associated at hr
      rw [if_neg hown] at hr
      exact absurd hr (by simp)
    · unfold create_support_mint_associated
      rw [if_neg hown]

/-- Witness for c8_support_mint_gating: the admin registers mint [9]
once, and the second attempt fails on the existing account. -/
theorem c8_support_mint_gating_witness :
    create_support_mint_associated fpa0 [1] (fun _ => none) admin_ID
        ⟨[9], TOKEN_2022_PROGRAM⟩ =
      Except.ok (sm_addr, sm_state) ∧
    create_support_mint_associated fpa0 [1] accounts1 admin_ID
        ⟨[9], TOKEN_2022_PROGRAM⟩ =
      Except.error AmmError.AccountAlreadyInitialized := by
  have h := (c8_support_mint_gating fpa0 [1] (fun _ => none) admin_ID
    ⟨[9], TOKEN_2022_PROGRAM⟩).2.2 (Or.inl rfl) rfl rfl
  exact ⟨h.1, h.2 accounts1 (by decide)⟩

theorem ite_none_some {α : Type} {p : Prop} [Decidable p] {x : Option α} {y : α}
    (h : (if p then none else x) = some y) : x = some y := by
  by_cases hp : p
  · rw [if_pos hp] at h; exact absurd h (by simp)
  · rwa [if_neg hp] at h

/-- C10 as amended: every configuration load_cfg accepts satisfies: when
both mints are present the stored mint0 never compares greater than
mint1 (and compares strictly lower whenever the two are distinct) and
both the pool and bitmap-extension addresses are present; when either
mint is absent, both derived addresses are absent. -/
theorem c10_load_cfg_shape (fpa : Fpa) (c : RawCfg) (cfg : ClientConfig)
    (h : load_cfg fpa c = some cfg) :
    (∀ a b, cfg.mint0 = some a → cfg.mint1 = some b →
      byteCompare a b ≠ Ordering.gt ∧
      (a ≠ b → byteCompare a b = Ordering.lt) ∧
      cfg.pool_id_account.isSome = true ∧
      cfg.tickarray_bitmap_extension.isSome = true) ∧
    ((cfg.mint0 = none ∨ cfg.mint1 = none) →
      cfg.pool_id_account = none ∧ cfg.tickarray_bitmap_extension = none) := by
  obtain ⟨hu, wu, pp, ap, rvp, m0, m1, idx⟩ := c
  unfold load_cfg at h
  replace h := ite_none_some h
  replace h := ite_none_some h
  replace h := ite_none_some h
  replace h := ite_none_some h
  cases rvp with
  | empty => simp at h
  | bad => simp at h
  | ok program =>
    cases idx with
    | none => cases m0 <;> cases m1 <;> simp at h
    | some index =>
      cases m0 with
      | empty =>
        cases m1 <;> simp at h <;> subst h <;>
          exact ⟨fun a b ha hb => by simp at ha hb, fun _ => ⟨rfl, rfl⟩⟩
      | bad => cases m1 <;> simp at h
      | ok k0 =>
        cases m1 with
        | empty =>
          simp at h
          subst h
          exact ⟨fun a b ha hb => by simp at ha hb, fun _ => ⟨rfl, rfl⟩⟩
        | bad => simp at h
        | ok k1 =>
          simp at h
          subst h
          by_cases hab : byteCompare k0 k1 = Ordering.gt
          · have hlt : byteCompare k1 k0 = Ordering.lt :=
              (byteCompare_gt_iff_lt k0 k1).mp hab
            refine ⟨fun a b ha hb => ?_, fun hcon => ?_⟩
            · rw [if_pos hab] at ha hb
              simp at ha hb
              subst ha
              subst hb
              refine ⟨by simp [hlt], fun _ => hlt, ?_, ?_⟩ <;>
                simp [if_pos hab]
            · rw [if_pos hab] at hcon
              rcases hcon with hc | hc <;> simp at hc
          · refine ⟨fun a b ha hb => ?_, fun hcon => ?_⟩
            · rw [if_neg hab] at ha hb
              simp at ha hb
              subst ha
              subst hb
              refine ⟨hab, fun hne => ?_, ?_, ?_⟩
              · cases hcc : byteCompare k0 k1 with
                | lt => rfl
                | eq => exact absurd ((byteCompare_eq_iff k0 k1).mp hcc) hne
                | gt => exact absurd hcc hab
              · simp [if_neg hab]
              · simp [if_neg hab]
            · rw [if_neg hab] at hcon
              rcases hcon with hc | hc <;> simp at hc

/-- Counterexample to C10 as stated: a configuration whose two mint
entries hold the same key loads successfully with both mints present,
yet the stored mint0 does not sort strictly lower than mint1 (they are
equal), so the strictly-lower clause fails. -/
theorem c10_counterexample :
    load_cfg fpa0 rawCfgEq = some c10cfg ∧
    c10cfg.mint0 = some [1] ∧
    c10cfg.mint1 = some [1] ∧
    byteCompare [1] [1] ≠ Ordering.lt := by
  refine ⟨by decide, rfl, rfl, by decide⟩

/-- Witness for c10_load_cfg_shape at the concrete configuration
rawCfgEq loaded under fpa0. -/
theorem c10_load_cfg_shape_witness :
    byteCompare [1] [1] ≠ Ordering.gt ∧
    c10cfg.pool_id_account.isSome = true ∧
    c10cfg.tickarray_bitmap_extension.isSome = true := by
  have h := (c10_load_cfg_shape fpa0 rawCfgEq c10cfg (by decide)).1 [1] [1] rfl rfl
  exact ⟨h.1, h.2.2.1, h.2.2.2⟩
